import Mathlib

/-!
Verification of the `OrdinalSupConLoss` cell from `code/loss/ordinal_losses.py`
(an ordinal-aware supervised contrastive loss in MindSpore).

The embedding models the `construct` method for two-view inputs
(`features : [batch_size, 2, embedding_dim]`, the shape assumed by the ordinal
weight construction, which duplicates the labels exactly twice).  Tensors are
embedded as functions out of `Fin`; floating point arithmetic is idealised as
exact real arithmetic, with `Real.exp` / `Real.log` for the `exp` / `log`
primitives.  `labels` is passed as the flattened list of its entries, because
the source reshapes `labels` with `view(-1, 1)` before any shape check, so only
the total element count is observable.  Raised `ValueError`s and the
undefined-local-variable failure at `exp_logits_sum = O.matmul(exp_logits, weights)`
(the name `weights` is only ever bound on the labels path) are modelled with an
`Except` result.
-/

open BigOperators

namespace VIDUE

/-- The failure outcomes of `OrdinalSupConLoss.construct`: the three explicit
`ValueError` raises, and the undefined local variable `weights` hit at
`exp_logits_sum = O.matmul(exp_logits, weights)` on every path where the labels
branch was not taken. -/
inductive LossError where
  | bothLabelsAndMask : LossError
  | numLabelsMismatch : LossError
  | unknownMode : LossError
  | weightsUndefined : LossError
  deriving DecidableEq

/-- Index into the batch underlying a flat two-view pool index: the pool is the
concatenation of view 0's batch followed by view 1's batch, so pool row `i`
carries batch item `i % B`. -/
def pool_idx (B : ℕ) (i : Fin (2 * B)) : Fin B :=
  ⟨i.1 % B, Nat.mod_lt _ (by have h := i.2; omega)⟩

/-- `contrast_feature = O.cat(O.unbind(features, dim=1), axis=0)`: rows `0..B-1`
are view 0's batch slice, rows `B..2B-1` are view 1's. -/
def contrast_feature (B D : ℕ) (f : Fin B → Fin 2 → Fin D → ℝ) :
    Fin (2 * B) → Fin D → ℝ :=
  fun i d =>
    if h : i.1 < B then f ⟨i.1, h⟩ 0 d
    else f ⟨i.1 - B, by have h2 := i.2; omega⟩ 1 d

/-- `anchor_dot_contrast = O.div(O.matmul(anchor_feature, contrast_feature.T), temperature)`
for `contrast_mode = 'all'`, where `anchor_feature = contrast_feature`. -/
noncomputable def anchor_dot_contrast_all (t : ℝ) (B D : ℕ)
    (f : Fin B → Fin 2 → Fin D → ℝ) : Fin (2 * B) → Fin (2 * B) → ℝ :=
  fun i j => (∑ d, contrast_feature B D f i d * contrast_feature B D f j d) / t

/-- `anchor_dot_contrast` for `contrast_mode = 'one'`, where
`anchor_feature = features[:, 0]`. -/
noncomputable def anchor_dot_contrast_one (t : ℝ) (B D : ℕ)
    (f : Fin B → Fin 2 → Fin D → ℝ) : Fin B → Fin (2 * B) → ℝ :=
  fun i j => (∑ d, f i 0 d * contrast_feature B D f j d) / t

/-- `logits_max, _ = O.max(anchor_dot_contrast, axis=1, keepdims=True)`:
the maximum of one row (over a nonempty index type; junk value `0` on the
degenerate empty row, which only occurs for an empty batch). -/
noncomputable def logits_max {m : ℕ} (row : Fin m → ℝ) : ℝ :=
  if h : (Finset.univ : Finset (Fin m)).Nonempty then Finset.univ.sup' h row else 0

/-- `logits = anchor_dot_contrast - logits_max`: the row-max-shifted similarities. -/
noncomputable def logitsShifted {n m : ℕ} (s : Fin n → Fin m → ℝ) : Fin n → Fin m → ℝ :=
  fun i j => s i j - logits_max (s i)

/-- `logits_mask = O.eye(mask.shape[0], mask.shape[1])*(-1)+1`: zero on the
(possibly rectangular) diagonal, one elsewhere. -/
def logits_mask (n m : ℕ) : Fin n → Fin m → ℝ :=
  fun i j => if (i : ℕ) = (j : ℕ) then 0 else 1

/-- `mask = O.equal(labels, labels.T).float()`: the label-equality positive mask. -/
noncomputable def mask_from_labels (B : ℕ) (l : Fin B → ℝ) : Fin B → Fin B → ℝ :=
  fun i j => if l i = l j then 1 else 0

/-- `labels_r = labels.tile((2,1)); weights = O.abs((labels_r - labels_r.T)).float()`:
the pairwise absolute ordinal distance on the two-view pool. -/
noncomputable def weights_from_labels (B : ℕ) (l : Fin B → ℝ) :
    Fin (2 * B) → Fin (2 * B) → ℝ :=
  fun i j => |l (pool_idx B i) - l (pool_idx B j)|

/-- `mask = O.eye(batch_size, dtype=ms.float32)`: the degenerate identity mask. -/
def eye_mask (B : ℕ) : Fin B → Fin B → ℝ :=
  fun i j => if i = j then 1 else 0

/-- `mask = mask.tile((anchor_count, contrast_count))` for `anchor_count = 2`:
block repetition of the `[B, B]` mask over the `[2B, 2B]` pool. -/
def tile_mask_all (B : ℕ) (m0 : Fin B → Fin B → ℝ) : Fin (2 * B) → Fin (2 * B) → ℝ :=
  fun i j => m0 (pool_idx B i) (pool_idx B j)

/-- `mask = mask.tile((anchor_count, contrast_count))` for `anchor_count = 1`:
block repetition of the `[B, B]` mask to `[B, 2B]`. -/
def tile_mask_one (B : ℕ) (m0 : Fin B → Fin B → ℝ) : Fin B → Fin (2 * B) → ℝ :=
  fun i j => m0 i (pool_idx B j)

/-- `mask = mask * logits_mask`: the tiled positive mask with self-contrast
entries zeroed. -/
noncomputable def mask_excl {n m : ℕ} (maskT : Fin n → Fin m → ℝ) : Fin n → Fin m → ℝ :=
  fun i j => maskT i j * logits_mask n m i j

/-- `exp_logits = O.exp(logits) * logits_mask`. -/
noncomputable def exp_logits {n m : ℕ} (lg : Fin n → Fin m → ℝ) : Fin n → Fin m → ℝ :=
  fun i j => Real.exp (lg i j) * logits_mask n m i j

/-- `exp_logits_sum = O.matmul(exp_logits, weights)`: the ordinal-reweighted
denominator, a true matrix product. -/
noncomputable def exp_logits_sum {n m : ℕ} (lg : Fin n → Fin m → ℝ)
    (w : Fin m → Fin m → ℝ) : Fin n → Fin m → ℝ :=
  fun i k => ∑ j, exp_logits lg i j * w j k

/-- `log_prob = logits - O.log(exp_logits_sum)`. -/
noncomputable def log_prob {n m : ℕ} (lg : Fin n → Fin m → ℝ) (w : Fin m → Fin m → ℝ) :
    Fin n → Fin m → ℝ :=
  fun i j => lg i j - Real.log (exp_logits_sum lg w i j)

/-- `mean_log_prob_pos = (mask * log_prob).sum(1) / mask.sum(1)`, where `mask`
is the tiled, self-excluded positive mask. -/
noncomputable def mean_log_prob_pos {n m : ℕ} (lg maskT : Fin n → Fin m → ℝ)
    (w : Fin m → Fin m → ℝ) : Fin n → ℝ :=
  fun i => (∑ j, mask_excl maskT i j * log_prob lg w i j) / (∑ j, mask_excl maskT i j)

/-- `loss = -(temperature / base_temperature) * mean_log_prob_pos;
loss = loss.view(anchor_count, batch_size).mean()`: the uniform mean of the
per-anchor losses over all `n` anchor rows, starting from a given logits
matrix `lg`. -/
noncomputable def loss_reduce (t bt : ℝ) {n m : ℕ} (lg maskT : Fin n → Fin m → ℝ)
    (w : Fin m → Fin m → ℝ) : ℝ :=
  (∑ i, -(t / bt) * mean_log_prob_pos lg maskT w i) / (n : ℝ)

/-- The scalar loss for `contrast_mode = 'all'`, exactly as computed by the
source (row-max shift included). -/
noncomputable def loss_all (t bt : ℝ) (B D : ℕ) (f : Fin B → Fin 2 → Fin D → ℝ)
    (m0 : Fin B → Fin B → ℝ) (w : Fin (2 * B) → Fin (2 * B) → ℝ) : ℝ :=
  loss_reduce t bt (logitsShifted (anchor_dot_contrast_all t B D f)) (tile_mask_all B m0) w

/-- The `contrast_mode = 'all'` loss with the row-max stability shift omitted:
`logits = anchor_dot_contrast` is used directly. -/
noncomputable def loss_all_noshift (t bt : ℝ) (B D : ℕ) (f : Fin B → Fin 2 → Fin D → ℝ)
    (m0 : Fin B → Fin B → ℝ) (w : Fin (2 * B) → Fin (2 * B) → ℝ) : ℝ :=
  loss_reduce t bt (anchor_dot_contrast_all t B D f) (tile_mask_all B m0) w

/-- The scalar loss for `contrast_mode = 'one'`: `batch_size` anchor rows taken
from view 0's batch slice, `anchor_count = 1`. -/
noncomputable def loss_one (t bt : ℝ) (B D : ℕ) (f : Fin B → Fin 2 → Fin D → ℝ)
    (m0 : Fin B → Fin B → ℝ) (w : Fin (2 * B) → Fin (2 * B) → ℝ) : ℝ :=
  loss_reduce t bt (logitsShifted (anchor_dot_contrast_one t B D f)) (tile_mask_one B m0) w

/-- Reading the flattened labels list as a function on the batch (defined once
the length check `labels.shape[0] == batch_size` has passed). -/
def labels_fun (B : ℕ) (l : List ℝ) : Fin B → ℝ := fun i => l.getD i.1 0

/-- Lines 56-94 of the source: mode dispatch, similarity scoring and reduction,
given the (untiled) positive mask and the optional ordinal weight matrix.  The
local variable `weights` is only defined on the labels path; every other path
reaches `exp_logits_sum = O.matmul(exp_logits, weights)` with `weights` unbound
and fails there (after the unknown-mode check, which the source performs
first). -/
noncomputable def constructCore (t bt : ℝ) (mode : String) (B D : ℕ)
    (f : Fin B → Fin 2 → Fin D → ℝ) (m0 : Fin B → Fin B → ℝ)
    (w? : Option (Fin (2 * B) → Fin (2 * B) → ℝ)) : Except LossError ℝ :=
  if mode = "one" then
    match w? with
    | some w => Except.ok (loss_one t bt B D f m0 w)
    | none => Except.error LossError.weightsUndefined
  else if mode = "all" then
    match w? with
    | some w => Except.ok (loss_all t bt B D f m0 w)
    | none => Except.error LossError.weightsUndefined
  else Except.error LossError.unknownMode

/-- `OrdinalSupConLoss.construct` for two-view features: argument-conflict
check, mask/weight construction (with the labels length check on the reshaped
labels), then the shared core. -/
noncomputable def construct (t bt : ℝ) (mode : String) (B D : ℕ)
    (f : Fin B → Fin 2 → Fin D → ℝ)
    (labels : Option (List ℝ)) (mask : Option (Fin B → Fin B → ℝ)) : Except LossError ℝ :=
  match labels, mask with
  | some _, some _ => Except.error LossError.bothLabelsAndMask
  | none, none => constructCore t bt mode B D f (eye_mask B) none
  | some l, none =>
      if l.length = B then
        constructCore t bt mode B D f (mask_from_labels B (labels_fun B l))
          (some (weights_from_labels B (labels_fun B l)))
      else Except.error LossError.numLabelsMismatch
  | none, some m => constructCore t bt mode B D f m none

/-- C4: with both `labels` and `mask` supplied the call fails with the
argument-conflict `ValueError`, for every features tensor (of any flattened
embedding width), every labels list, every mask and every contrast mode; in
particular the outcome never depends on any tensor computation on `features`. -/
theorem C4_both_labels_and_mask_conflict (t bt : ℝ) (mode : String) (B D : ℕ)
    (f : Fin B → Fin 2 → Fin D → ℝ) (l : List ℝ) (m : Fin B → Fin B → ℝ) :
    construct t bt mode B D f (some l) (some m) = Except.error LossError.bothLabelsAndMask := rfl

/-- C2: with `labels = None` and `mask = None` the call does NOT degenerate to
the SimCLR unsupervised loss: on this path the local variable `weights` is
never bound, so the call fails at `exp_logits_sum = O.matmul(exp_logits, weights)`
(in both valid contrast modes), contradicting the docstring's promised
degenerate behaviour. -/
theorem C2_degenerate_path_fails_weights_undefined (t bt : ℝ) (B D : ℕ)
    (f : Fin B → Fin 2 → Fin D → ℝ) :
    construct t bt "all" B D f none none = Except.error LossError.weightsUndefined ∧
    construct t bt "one" B D f none none = Except.error LossError.weightsUndefined :=
  ⟨rfl, rfl⟩

/-- C3: with a mask supplied and `labels = None` the call never returns a loss:
no ordinal weight tensor is defined on this path, so the computation fails with
the undefined variable `weights` at the denominator-weighting step, in both
valid contrast modes. -/
theorem C3_mask_path_fails_weights_undefined (t bt : ℝ) (B D : ℕ)
    (f : Fin B → Fin 2 → Fin D → ℝ) (m : Fin B → Fin B → ℝ) :
    construct t bt "all" B D f none (some m) = Except.error LossError.weightsUndefined ∧
    construct t bt "one" B D f none (some m) = Except.error LossError.weightsUndefined :=
  ⟨rfl, rfl⟩

/-- Reading back a labels list built from a batch-indexed function. -/
lemma labels_fun_ofFn (B : ℕ) (l : Fin B → ℝ) : labels_fun B (List.ofFn l) = l := by
  funext i
  have h : i.1 < (List.ofFn l).length := by simp
  rw [labels_fun, List.getD_eq_getElem _ _ h, List.getElem_ofFn]

/-- The labels path with `contrast_mode = 'all'` returns the shifted loss built
from `mask_from_labels` and `weights_from_labels`. -/
lemma construct_labels_all (t bt : ℝ) (B D : ℕ) (f : Fin B → Fin 2 → Fin D → ℝ)
    (l : Fin B → ℝ) :
    construct t bt "all" B D f (some (List.ofFn l)) none =
      Except.ok (loss_all t bt B D f (mask_from_labels B l) (weights_from_labels B l)) := by
  simp [construct, constructCore, labels_fun_ofFn]

/-- The labels path with `contrast_mode = 'one'` returns the shifted loss over
view 0's anchor rows. -/
lemma construct_labels_one (t bt : ℝ) (B D : ℕ) (f : Fin B → Fin 2 → Fin D → ℝ)
    (l : Fin B → ℝ) :
    construct t bt "one" B D f (some (List.ofFn l)) none =
      Except.ok (loss_one t bt B D f (mask_from_labels B l) (weights_from_labels B l)) := by
  simp [construct, constructCore, labels_fun_ofFn]

/-- The reference formula of the specification for the labels path with
`contrast_mode = 'all'`, spelled out from its words: on the `2B` pool,
`weights[p][j] = |labels[p mod B] - labels[j mod B]|`; the per-anchor
denominator is the matrix product of the self-excluded `exp(logits)` with this
weight matrix; `log_prob = logits - log(denominator)` elementwise;
`mean_log_prob_pos` per anchor row is the sum of the tiled self-excluded
positive mask times `log_prob`, divided by the row sum of that mask; the loss
is the uniform mean over all `2B` anchor rows of
`-(temperature / base_temperature) * mean_log_prob_pos`. -/
noncomputable def ref_loss (t bt : ℝ) (B D : ℕ) (f : Fin B → Fin 2 → Fin D → ℝ)
    (l : Fin B → ℝ) : ℝ :=
  (∑ i : Fin (2 * B),
      -(t / bt) *
        ((∑ j : Fin (2 * B),
            (if l (pool_idx B i) = l (pool_idx B j) then (1 : ℝ) else 0) *
                (if (i : ℕ) = (j : ℕ) then (0 : ℝ) else 1) *
              (logitsShifted (anchor_dot_contrast_all t B D f) i j -
                Real.log (∑ p : Fin (2 * B),
                  Real.exp (logitsShifted (anchor_dot_contrast_all t B D f) i p) *
                      (if (i : ℕ) = (p : ℕ) then (0 : ℝ) else 1) *
                    |l (pool_idx B p) - l (pool_idx B j)|))) /
          (∑ j : Fin (2 * B),
            (if l (pool_idx B i) = l (pool_idx B j) then (1 : ℝ) else 0) *
              (if (i : ℕ) = (j : ℕ) then (0 : ℝ) else 1)))) /
    ((2 * B : ℕ) : ℝ)

/-- C1: for every `[B, 2, D]` features input with labels supplied and
`contrast_mode = 'all'`, the returned scalar equals the specification's
reference formula (ordinal matrix-product denominator, elementwise
`log_prob`, mask-normalised positive mean, uniform mean over the `2B` anchor
rows). -/
theorem C1_all_mode_labels_matches_reference (t bt : ℝ) (B D : ℕ)
    (f : Fin B → Fin 2 → Fin D → ℝ) (l : Fin B → ℝ) :
    construct t bt "all" B D f (some (List.ofFn l)) none =
      Except.ok (ref_loss t bt B D f l) := by
  rw [construct_labels_all]
  congr 1

/-- C5: the positive mask derived from labels is `1` at `(i, j)` exactly when
`labels[i] = labels[j]` and `0` exactly otherwise, and after tiling to the
two-view pool and applying the self-contrast exclusion every diagonal entry is
zero, so no anchor counts itself as a positive. -/
theorem C5_label_mask_and_self_exclusion (B : ℕ) (l : Fin B → ℝ) :
    (∀ i j : Fin B, (mask_from_labels B l i j = 1 ↔ l i = l j) ∧
      (mask_from_labels B l i j = 0 ↔ l i ≠ l j)) ∧
    (∀ i : Fin (2 * B), mask_excl (tile_mask_all B (mask_from_labels B l)) i i = 0) := by
  constructor
  · intro i j
    constructor
    · unfold mask_from_labels
      split <;> simp_all
    · unfold mask_from_labels
      split <;> simp_all
  · intro i
    simp [mask_excl, logits_mask]

/-- C10: on the labels path the shape check observes only the total element
count of the (reshaped) labels: the call fails with the labels-shape error
exactly when that count differs from `batch_size`, independently of the
contrast mode. -/
theorem C10_labels_shape_check_counts_elements (t bt : ℝ) (mode : String) (B D : ℕ)
    (f : Fin B → Fin 2 → Fin D → ℝ) (l : List ℝ) :
    construct t bt mode B D f (some l) none = Except.error LossError.numLabelsMismatch ↔
      l.length ≠ B := by
  constructor
  · intro h hlen
    rw [construct] at h
    rw [if_pos hlen] at h
    rw [constructCore] at h
    by_cases h1 : mode = "one"
    · rw [if_pos h1] at h
      exact absurd h (by simp)
    · rw [if_neg h1] at h
      by_cases h2 : mode = "all"
      · rw [if_pos h2] at h
        exact absurd h (by simp)
      · rw [if_neg h2] at h
        exact absurd h (by simp)
  · intro hlen
    rw [construct, if_neg hlen]

/-- Shifting each logits row by its maximum divides every entry of the
reweighted denominator row by `exp` of that maximum. -/
lemma log_prob_shift {n m : ℕ} (s : Fin n → Fin m → ℝ) (w : Fin m → Fin m → ℝ)
    (hD : ∀ i k, exp_logits_sum s w i k ≠ 0) :
    log_prob (logitsShifted s) w = log_prob s w := by
  funext i j
  have hc : Real.exp (logits_max (s i)) ≠ 0 := Real.exp_ne_zero _
  have hsum : exp_logits_sum (logitsShifted s) w i j
      = exp_logits_sum s w i j / Real.exp (logits_max (s i)) := by
    simp only [exp_logits_sum, exp_logits, logitsShifted, Real.exp_sub, Finset.sum_div]
    exact Finset.sum_congr rfl fun p _ => by ring
  simp only [log_prob, hsum, logitsShifted]
  rw [Real.log_div (hD i j) hc, Real.log_exp]
  ring

/-- The log-sum-exp shift identity for the whole reduction: subtracting the
per-row maximum before exponentiating does not change the loss, provided every
entry of the reweighted denominator is nonzero. -/
lemma loss_reduce_shift (t bt : ℝ) {n m : ℕ} (s maskT : Fin n → Fin m → ℝ)
    (w : Fin m → Fin m → ℝ) (hD : ∀ i k, exp_logits_sum s w i k ≠ 0) :
    loss_reduce t bt (logitsShifted s) maskT w = loss_reduce t bt s maskT w := by
  unfold loss_reduce mean_log_prob_pos
  rw [log_prob_shift s w hD]

/-- On the labels path with at least two distinct labels, every entry of the
ordinal-reweighted denominator is strictly positive: some non-diagonal pool
column carries a label different from the target column's label, and the
corresponding `exp` term survives both masks. -/
lemma exp_logits_sum_labels_pos (B : ℕ) (l : Fin B → ℝ)
    (hne : ∃ a b : Fin B, l a ≠ l b) {n : ℕ} (lg : Fin n → Fin (2 * B) → ℝ)
    (i : Fin n) (k : Fin (2 * B)) :
    0 < exp_logits_sum lg (weights_from_labels B l) i k := by
  obtain ⟨a, b, hab⟩ := hne
  obtain ⟨c, hc⟩ : ∃ c : Fin B, l c ≠ l (pool_idx B k) := by
    by_cases hca : l a = l (pool_idx B k)
    · exact ⟨b, fun hcb => hab (hca.trans hcb.symm)⟩
    · exact ⟨a, hca⟩
  have hB : 0 < B := Nat.lt_of_le_of_lt (Nat.zero_le c.1) c.2
  obtain ⟨j0, hij0, hpj0⟩ :
      ∃ j0 : Fin (2 * B), (i : ℕ) ≠ (j0 : ℕ) ∧ pool_idx B j0 = c := by
    by_cases hic : (i : ℕ) = c.1
    · refine ⟨⟨c.1 + B, by have := c.2; omega⟩, ?_, ?_⟩
      · show (i : ℕ) ≠ c.1 + B
        omega
      · apply Fin.ext
        show (c.1 + B) % B = c.1
        rw [Nat.add_mod_right]
        exact Nat.mod_eq_of_lt c.2
    · refine ⟨⟨c.1, by have := c.2; omega⟩, hic, ?_⟩
      apply Fin.ext
      show c.1 % B = c.1
      exact Nat.mod_eq_of_lt c.2
  unfold exp_logits_sum
  refine Finset.sum_pos' (fun j _ => ?_) ⟨j0, Finset.mem_univ _, ?_⟩
  · refine mul_nonneg (mul_nonneg (Real.exp_pos _).le ?_) (abs_nonneg _)
    unfold logits_mask
    split <;> norm_num
  · have hlm : logits_mask n (2 * B) i j0 = 1 := by
      unfold logits_mask
      rw [if_neg hij0]
    show 0 < Real.exp (lg i j0) * logits_mask n (2 * B) i j0 *
      |l (pool_idx B j0) - l (pool_idx B k)|
    rw [hlm, mul_one, hpj0]
    exact mul_pos (Real.exp_pos _) (abs_pos.mpr (sub_ne_zero.mpr hc))

/-- C6: on the labels path (with at least two distinct labels, so that the
reweighted denominators are nonzero and the logarithms are well defined), the
row-max stability shift does not change the returned loss: `construct`, which
shifts, returns exactly the loss computed with no shift. -/
theorem C6_row_max_shift_invariance (t bt : ℝ) (B D : ℕ)
    (f : Fin B → Fin 2 → Fin D → ℝ) (l : Fin B → ℝ)
    (hne : ∃ a b : Fin B, l a ≠ l b) :
    construct t bt "all" B D f (some (List.ofFn l)) none =
      Except.ok (loss_all_noshift t bt B D f (mask_from_labels B l)
        (weights_from_labels B l)) := by
  rw [construct_labels_all]
  congr 1
  unfold loss_all loss_all_noshift
  exact loss_reduce_shift t bt _ _ _ fun i k =>
    (exp_logits_sum_labels_pos B l hne _ i k).ne'

/-- Witness for C6 at a concrete input: batch 2, labels `0` and `1`. -/
theorem C6_witness :
    construct 1 1 "all" 2 1 (fun _ _ _ => 0)
        (some (List.ofFn (fun i : Fin 2 => ((i : ℕ) : ℝ)))) none =
      Except.ok (loss_all_noshift 1 1 2 1 (fun _ _ _ => 0)
        (mask_from_labels 2 (fun i : Fin 2 => ((i : ℕ) : ℝ)))
        (weights_from_labels 2 (fun i : Fin 2 => ((i : ℕ) : ℝ)))) :=
  C6_row_max_shift_invariance 1 1 2 1 (fun _ _ _ => 0) (fun i : Fin 2 => ((i : ℕ) : ℝ))
    ⟨0, 1, by norm_num⟩

/-- C9 counterexample: a caller-supplied all-zero mask makes every anchor row's
positive-mask sum zero, yet the call returns the structured undefined-weights
failure instead of silently returning a scalar. -/
theorem C9_counterexample :
    (∀ i : Fin (2 * 1), ∑ j : Fin (2 * 1),
        mask_excl (tile_mask_all 1 (fun _ _ => (0 : ℝ))) i j = 0) ∧
    construct 1 1 "all" 1 1 (fun _ _ _ => (0 : ℝ)) none (some (fun _ _ => (0 : ℝ))) =
      Except.error LossError.weightsUndefined := by
  refine ⟨fun i => ?_, rfl⟩
  simp [mask_excl, tile_mask_all]

/-- C9 (amended): the only path that reaches the division is the labels path,
where the call returns a scalar with no structured error, and every anchor row
automatically owns at least one positive (its duplicate in the other view), so
every positive-mask row sum is nonzero and the division-by-zero branch is
unreachable. -/
theorem C9_division_by_zero_unreachable (t bt : ℝ) (B D : ℕ)
    (f : Fin B → Fin 2 → Fin D → ℝ) (l : Fin B → ℝ) :
    (∃ r : ℝ, construct t bt "all" B D f (some (List.ofFn l)) none = Except.ok r) ∧
    ∀ i : Fin (2 * B),
      (∑ j : Fin (2 * B), mask_excl (tile_mask_all B (mask_from_labels B l)) i j) ≠ 0 := by
  refine ⟨⟨_, construct_labels_all t bt B D f l⟩, fun i => ?_⟩
  have hB : 0 < B := by have := i.2; omega
  obtain ⟨j0, hij0, hpj0⟩ :
      ∃ j0 : Fin (2 * B), (i : ℕ) ≠ (j0 : ℕ) ∧ pool_idx B j0 = pool_idx B i := by
    by_cases hi : (i : ℕ) < B
    · refine ⟨⟨(i : ℕ) + B, by omega⟩, ?_, ?_⟩
      · show (i : ℕ) ≠ (i : ℕ) + B
        omega
      · apply Fin.ext
        show ((i : ℕ) + B) % B = (i : ℕ) % B
        exact Nat.add_mod_right _ _
    · refine ⟨⟨(i : ℕ) - B, by have := i.2; omega⟩, ?_, ?_⟩
      · show (i : ℕ) ≠ (i : ℕ) - B
        omega
      · apply Fin.ext
        show ((i : ℕ) - B) % B = (i : ℕ) % B
        exact (Nat.mod_eq_sub_mod (le_of_not_lt hi)).symm
  have hterm : mask_excl (tile_mask_all B (mask_from_labels B l)) i j0 = 1 := by
    simp [mask_excl, tile_mask_all, mask_from_labels, logits_mask, hpj0, hij0]
  refine (Finset.sum_pos' (fun j _ => ?_) ⟨j0, Finset.mem_univ _, ?_⟩).ne'
  · unfold mask_excl tile_mask_all mask_from_labels logits_mask
    split_ifs <;> norm_num
  · rw [hterm]
    norm_num

/-- C7: with two views, `contrast_mode = 'one'` returns the loss over exactly
`batch_size` anchor rows drawn from view 0's batch slice (`anchor_count = 1`),
`contrast_mode = 'all'` returns the loss over the whole `2 * batch_size` pool
(`anchor_count = 2`), each a single scalar, and any other mode string fails
with the unknown-mode error. -/
theorem C7_contrast_mode_dispatch (t bt : ℝ) (B D : ℕ)
    (f : Fin B → Fin 2 → Fin D → ℝ) (l : Fin B → ℝ) (mode : String) :
    construct t bt "one" B D f (some (List.ofFn l)) none =
      Except.ok (loss_one t bt B D f (mask_from_labels B l) (weights_from_labels B l)) ∧
    construct t bt "all" B D f (some (List.ofFn l)) none =
      Except.ok (loss_all t bt B D f (mask_from_labels B l) (weights_from_labels B l)) ∧
    (mode ≠ "one" → mode ≠ "all" →
      construct t bt mode B D f (some (List.ofFn l)) none =
        Except.error LossError.unknownMode) := by
  refine ⟨construct_labels_one t bt B D f l, construct_labels_all t bt B D f l,
    fun h1 h2 => ?_⟩
  simp [construct, constructCore, h1, h2]

/-- Witness for C7's unknown-mode clause at the concrete mode string "two". -/
theorem C7_witness :
    construct 1 1 "two" 1 1 (fun _ _ _ => (0 : ℝ))
        (some (List.ofFn (fun _ : Fin 1 => (0 : ℝ)))) none =
      Except.error LossError.unknownMode :=
  (C7_contrast_mode_dispatch 1 1 1 1 (fun _ _ _ => (0 : ℝ)) (fun _ => (0 : ℝ)) "two").2.2
    (by decide) (by decide)

/-- Applying a batch permutation block-wise to the two-view pool: view-0 rows
map to view-0 rows and view-1 rows to view-1 rows. -/
def pool_perm_fun (B : ℕ) (σ : Fin B → Fin B) (i : Fin (2 * B)) : Fin (2 * B) :=
  if h : i.1 < B then ⟨(σ ⟨i.1, h⟩).1, by have := (σ ⟨i.1, h⟩).2; omega⟩
  else ⟨B + (σ ⟨i.1 - B, by have := i.2; omega⟩).1,
    by have := (σ ⟨i.1 - B, by have := i.2; omega⟩).2; omega⟩

lemma pool_idx_val_lt (B : ℕ) (i : Fin (2 * B)) (h : i.1 < B) :
    (pool_idx B i).1 = i.1 := Nat.mod_eq_of_lt h

lemma pool_idx_val_ge (B : ℕ) (i : Fin (2 * B)) (h : ¬ i.1 < B) :
    (pool_idx B i).1 = i.1 - B := by
  show i.1 % B = i.1 - B
  rw [Nat.mod_eq_sub_mod (le_of_not_lt h)]
  exact Nat.mod_eq_of_lt (by have := i.2; omega)

/-- Value of the block-wise pool action: the view offset is kept and the batch
index is permuted. -/
lemma pool_perm_fun_val (B : ℕ) (σ : Fin B → Fin B) (i : Fin (2 * B)) :
    (pool_perm_fun B σ i).1 = (if i.1 < B then 0 else B) + (σ (pool_idx B i)).1 := by
  unfold pool_perm_fun
  by_cases h : i.1 < B
  · rw [dif_pos h, if_pos h]
    show (σ ⟨i.1, h⟩).1 = 0 + (σ (pool_idx B i)).1
    have hp : (⟨i.1, h⟩ : Fin B) = pool_idx B i := Fin.ext (pool_idx_val_lt B i h).symm
    rw [hp]
    omega
  · rw [dif_neg h, if_neg h]
    show B + (σ ⟨i.1 - B, by have := i.2; omega⟩).1 = B + (σ (pool_idx B i)).1
    have hp : (⟨i.1 - B, by have := i.2; omega⟩ : Fin B) = pool_idx B i :=
      Fin.ext (pool_idx_val_ge B i h).symm
    rw [hp]

lemma pool_perm_fun_injective (B : ℕ) (σ : Equiv.Perm (Fin B)) :
    Function.Injective (pool_perm_fun B σ) := by
  intro i j hij
  have hv : (pool_perm_fun B σ i).1 = (pool_perm_fun B σ j).1 := congrArg Fin.val hij
  rw [pool_perm_fun_val, pool_perm_fun_val] at hv
  have hσi := (σ (pool_idx B i)).2
  have hσj := (σ (pool_idx B j)).2
  have hbi := i.2
  have hbj := j.2
  by_cases hi : i.1 < B <;> by_cases hj : j.1 < B
  · rw [if_pos hi, if_pos hj] at hv
    have hidx : pool_idx B i = pool_idx B j :=
      σ.injective (Fin.ext (by omega))
    have := congrArg Fin.val hidx
    rw [pool_idx_val_lt B i hi, pool_idx_val_lt B j hj] at this
    exact Fin.ext this
  · rw [if_pos hi, if_neg hj] at hv
    omega
  · rw [if_neg hi, if_pos hj] at hv
    omega
  · rw [if_neg hi, if_neg hj] at hv
    have hidx : pool_idx B i = pool_idx B j :=
      σ.injective (Fin.ext (by omega))
    have := congrArg Fin.val hidx
    rw [pool_idx_val_ge B i hi, pool_idx_val_ge B j hj] at this
    exact Fin.ext (by omega)

/-- The block-wise pool action of a batch permutation, as a permutation of the
two-view pool. -/
noncomputable def pool_perm (B : ℕ) (σ : Equiv.Perm (Fin B)) : Equiv.Perm (Fin (2 * B)) :=
  Equiv.ofBijective (pool_perm_fun B σ)
    (Finite.injective_iff_bijective.mp (pool_perm_fun_injective B σ))

lemma pool_perm_apply (B : ℕ) (σ : Equiv.Perm (Fin B)) (i : Fin (2 * B)) :
    pool_perm B σ i = pool_perm_fun B σ i := rfl

/-- The pool action commutes with projection to the batch index. -/
lemma pool_idx_pool_perm (B : ℕ) (σ : Equiv.Perm (Fin B)) (i : Fin (2 * B)) :
    pool_idx B (pool_perm B σ i) = σ (pool_idx B i) := by
  rw [pool_perm_apply]
  apply Fin.ext
  have hσ := (σ (pool_idx B i)).2
  by_cases h : i.1 < B
  · have h1 : (pool_perm_fun B σ i).1 = 0 + (σ (pool_idx B i)).1 := by
      rw [pool_perm_fun_val, if_pos h]
    have h2 : (pool_perm_fun B σ i).1 < B := by omega
    rw [pool_idx_val_lt B _ h2]
    omega
  · have h1 : (pool_perm_fun B σ i).1 = B + (σ (pool_idx B i)).1 := by
      rw [pool_perm_fun_val, if_neg h]
    have h2 : ¬ (pool_perm_fun B σ i).1 < B := by omega
    rw [pool_idx_val_ge B _ h2]
    omega

lemma contrast_feature_apply_lt (B D : ℕ) (f : Fin B → Fin 2 → Fin D → ℝ)
    (i : Fin (2 * B)) (h : i.1 < B) (d : Fin D) :
    contrast_feature B D f i d = f ⟨i.1, h⟩ 0 d := by
  unfold contrast_feature
  rw [dif_pos h]

lemma contrast_feature_apply_ge (B D : ℕ) (f : Fin B → Fin 2 → Fin D → ℝ)
    (i : Fin (2 * B)) (h : ¬ i.1 < B) (d : Fin D) :
    contrast_feature B D f i d = f ⟨i.1 - B, by have := i.2; omega⟩ 1 d := by
  unfold contrast_feature
  rw [dif_neg h]

/-- Permuting the batch axis of the features permutes the flattened pool by
the block-wise pool action. -/
lemma contrast_feature_perm (B D : ℕ) (f : Fin B → Fin 2 → Fin D → ℝ)
    (σ : Equiv.Perm (Fin B)) (i : Fin (2 * B)) (d : Fin D) :
    contrast_feature B D (fun a => f (σ a)) i d
      = contrast_feature B D f (pool_perm B σ i) d := by
  rw [pool_perm_apply]
  have hσ := (σ (pool_idx B i)).2
  by_cases h : i.1 < B
  · have h1 : (pool_perm_fun B σ i).1 = 0 + (σ (pool_idx B i)).1 := by
      rw [pool_perm_fun_val, if_pos h]
    have h2 : (pool_perm_fun B σ i).1 < B := by omega
    rw [contrast_feature_apply_lt B D _ i h d, contrast_feature_apply_lt B D f _ h2 d]
    show f (σ ⟨i.1, h⟩) 0 d = f ⟨(pool_perm_fun B σ i).1, h2⟩ 0 d
    have hp : (⟨i.1, h⟩ : Fin B) = pool_idx B i := Fin.ext (pool_idx_val_lt B i h).symm
    rw [hp]
    exact congrArg (fun z => f z 0 d)
      (Fin.ext (show (σ (pool_idx B i)).1 = (pool_perm_fun B σ i).1 by omega))
  · have hb := i.2
    have h1 : (pool_perm_fun B σ i).1 = B + (σ (pool_idx B i)).1 := by
      rw [pool_perm_fun_val, if_neg h]
    have h2 : ¬ (pool_perm_fun B σ i).1 < B := by omega
    rw [contrast_feature_apply_ge B D _ i h d, contrast_feature_apply_ge B D f _ h2 d]
    show f (σ ⟨i.1 - B, by omega⟩) 1 d = f ⟨(pool_perm_fun B σ i).1 - B, by omega⟩ 1 d
    have hp : (⟨i.1 - B, by omega⟩ : Fin B) = pool_idx B i :=
      Fin.ext (pool_idx_val_ge B i h).symm
    rw [hp]
    exact congrArg (fun z => f z 1 d)
      (Fin.ext (show (σ (pool_idx B i)).1 = (pool_perm_fun B σ i).1 - B by omega))

/-- A row maximum is invariant under a permutation of the columns. -/
lemma logits_max_perm {m : ℕ} (τ : Equiv.Perm (Fin m)) (g : Fin m → ℝ) :
    logits_max (fun j => g (τ j)) = logits_max g := by
  unfold logits_max
  by_cases h : (Finset.univ : Finset (Fin m)).Nonempty
  · rw [dif_pos h, dif_pos h]
    apply le_antisymm
    · exact Finset.sup'_le _ _ fun b _ => Finset.le_sup' g (Finset.mem_univ (τ b))
    · refine Finset.sup'_le _ _ fun b _ => ?_
      have hb : g b = g (τ (τ.symm b)) := by rw [Equiv.apply_symm_apply]
      rw [hb]
      exact Finset.le_sup' (fun j => g (τ j)) (Finset.mem_univ (τ.symm b))
  · rw [dif_neg h, dif_neg h]

/-- The row-max shift commutes with a joint reindexing of rows and columns. -/
lemma logitsShifted_reindex {n m : ℕ} (ρ : Equiv.Perm (Fin n)) (τ : Equiv.Perm (Fin m))
    (s : Fin n → Fin m → ℝ) :
    logitsShifted (fun i j => s (ρ i) (τ j)) = fun i j => logitsShifted s (ρ i) (τ j) := by
  funext i j
  simp only [logitsShifted]
  rw [logits_max_perm τ (s (ρ i))]

/-- The whole reduction is invariant under a joint reindexing of the anchor
rows and the pool columns that preserves the diagonal (`hval`). -/
lemma loss_reduce_reindex (t bt : ℝ) {n m : ℕ} (ρ : Equiv.Perm (Fin n))
    (τ : Equiv.Perm (Fin m))
    (hval : ∀ (i : Fin n) (j : Fin m), ((ρ i : ℕ) = (τ j : ℕ)) ↔ ((i : ℕ) = (j : ℕ)))
    (lg maskT : Fin n → Fin m → ℝ) (w : Fin m → Fin m → ℝ) :
    loss_reduce t bt (fun i j => lg (ρ i) (τ j)) (fun i j => maskT (ρ i) (τ j))
      (fun j k => w (τ j) (τ k)) = loss_reduce t bt lg maskT w := by
  have hlm : ∀ (i : Fin n) (j : Fin m),
      logits_mask n m (ρ i) (τ j) = logits_mask n m i j := by
    intro i j
    simp only [logits_mask]
    exact if_congr (hval i j) rfl rfl
  have hD : ∀ (i : Fin n) (k : Fin m),
      exp_logits_sum (fun a b => lg (ρ a) (τ b)) (fun a b => w (τ a) (τ b)) i k
        = exp_logits_sum lg w (ρ i) (τ k) := by
    intro i k
    simp only [exp_logits_sum, exp_logits]
    calc ∑ j, Real.exp (lg (ρ i) (τ j)) * logits_mask n m i j * w (τ j) (τ k)
        = ∑ j, Real.exp (lg (ρ i) (τ j)) * logits_mask n m (ρ i) (τ j) * w (τ j) (τ k) :=
          Finset.sum_congr rfl fun j _ => by rw [hlm i j]
      _ = ∑ j, Real.exp (lg (ρ i) j) * logits_mask n m (ρ i) j * w j (τ k) :=
          Equiv.sum_comp τ
            (fun j => Real.exp (lg (ρ i) j) * logits_mask n m (ρ i) j * w j (τ k))
  have hlp : ∀ (i : Fin n) (j : Fin m),
      log_prob (fun a b => lg (ρ a) (τ b)) (fun a b => w (τ a) (τ b)) i j
        = log_prob lg w (ρ i) (τ j) := by
    intro i j
    simp only [log_prob]
    rw [hD i j]
  have hme : ∀ (i : Fin n) (j : Fin m),
      mask_excl (fun a b => maskT (ρ a) (τ b)) i j = mask_excl maskT (ρ i) (τ j) := by
    intro i j
    simp only [mask_excl]
    rw [hlm i j]
  have hmlpp : ∀ i : Fin n,
      mean_log_prob_pos (fun a b => lg (ρ a) (τ b)) (fun a b => maskT (ρ a) (τ b))
          (fun a b => w (τ a) (τ b)) i
        = mean_log_prob_pos lg maskT w (ρ i) := by
    intro i
    simp only [mean_log_prob_pos]
    rw [Finset.sum_congr rfl fun j _ => by rw [hme i j, hlp i j],
      Equiv.sum_comp τ (fun j => mask_excl maskT (ρ i) j * log_prob lg w (ρ i) j),
      Finset.sum_congr rfl fun j _ => hme i j,
      Equiv.sum_comp τ (fun j => mask_excl maskT (ρ i) j)]
  simp only [loss_reduce]
  rw [Finset.sum_congr rfl fun i _ => by rw [hmlpp i],
    Equiv.sum_comp ρ (fun i => -(t / bt) * mean_log_prob_pos lg maskT w i)]

/-- The joint pool action preserves the diagonal ('all' mode). -/
lemma pool_perm_val_iff (B : ℕ) (σ : Equiv.Perm (Fin B)) (i j : Fin (2 * B)) :
    ((pool_perm B σ i : ℕ) = (pool_perm B σ j : ℕ)) ↔ (i : ℕ) = (j : ℕ) := by
  constructor
  · intro h
    exact congrArg Fin.val ((pool_perm B σ).injective (Fin.ext h))
  · intro h
    exact congrArg (fun z => ((pool_perm B σ z) : ℕ)) (Fin.ext h)

/-- The batch/pool pair of actions preserves the rectangular diagonal
('one' mode). -/
lemma pool_perm_val_iff_one (B : ℕ) (σ : Equiv.Perm (Fin B)) (i : Fin B)
    (j : Fin (2 * B)) :
    ((σ i : ℕ) = (pool_perm B σ j : ℕ)) ↔ (i : ℕ) = (j : ℕ) := by
  rw [pool_perm_apply]
  have hv := pool_perm_fun_val B σ j
  have hσi := (σ i).2
  have hσj := (σ (pool_idx B j)).2
  have hbj := j.2
  have hbi := i.2
  by_cases h : j.1 < B
  · rw [if_pos h] at hv
    have hpj : (pool_idx B j).1 = j.1 := pool_idx_val_lt B j h
    constructor
    · intro hval
      have h2 : σ i = σ (pool_idx B j) := Fin.ext (by omega)
      have h3 := congrArg Fin.val (σ.injective h2)
      omega
    · intro hval
      have h2 : i = pool_idx B j := Fin.ext (by omega)
      rw [h2]
      omega
  · rw [if_neg h] at hv
    constructor
    · intro hval
      omega
    · intro hval
      omega

lemma adc_all_perm (t : ℝ) (B D : ℕ) (f : Fin B → Fin 2 → Fin D → ℝ)
    (σ : Equiv.Perm (Fin B)) (i j : Fin (2 * B)) :
    anchor_dot_contrast_all t B D (fun a => f (σ a)) i j
      = anchor_dot_contrast_all t B D f (pool_perm B σ i) (pool_perm B σ j) := by
  unfold anchor_dot_contrast_all
  congr 1
  exact Finset.sum_congr rfl fun d _ => by
    rw [contrast_feature_perm, contrast_feature_perm]

lemma adc_one_perm (t : ℝ) (B D : ℕ) (f : Fin B → Fin 2 → Fin D → ℝ)
    (σ : Equiv.Perm (Fin B)) (i : Fin B) (j : Fin (2 * B)) :
    anchor_dot_contrast_one t B D (fun a => f (σ a)) i j
      = anchor_dot_contrast_one t B D f (σ i) (pool_perm B σ j) := by
  unfold anchor_dot_contrast_one
  congr 1
  exact Finset.sum_congr rfl fun d _ => by rw [contrast_feature_perm]

lemma weights_perm (B : ℕ) (l : Fin B → ℝ) (σ : Equiv.Perm (Fin B))
    (j k : Fin (2 * B)) :
    weights_from_labels B (fun a => l (σ a)) j k
      = weights_from_labels B l (pool_perm B σ j) (pool_perm B σ k) := by
  unfold weights_from_labels
  rw [pool_idx_pool_perm, pool_idx_pool_perm]

lemma tile_mask_all_perm (B : ℕ) (l : Fin B → ℝ) (σ : Equiv.Perm (Fin B))
    (i j : Fin (2 * B)) :
    tile_mask_all B (mask_from_labels B (fun a => l (σ a))) i j
      = tile_mask_all B (mask_from_labels B l) (pool_perm B σ i) (pool_perm B σ j) := by
  unfold tile_mask_all mask_from_labels
  rw [pool_idx_pool_perm, pool_idx_pool_perm]

lemma tile_mask_one_perm (B : ℕ) (l : Fin B → ℝ) (σ : Equiv.Perm (Fin B))
    (i : Fin B) (j : Fin (2 * B)) :
    tile_mask_one B (mask_from_labels B (fun a => l (σ a))) i j
      = tile_mask_one B (mask_from_labels B l) (σ i) (pool_perm B σ j) := by
  unfold tile_mask_one mask_from_labels
  rw [pool_idx_pool_perm]

lemma loss_all_perm (t bt : ℝ) (B D : ℕ) (f : Fin B → Fin 2 → Fin D → ℝ)
    (l : Fin B → ℝ) (σ : Equiv.Perm (Fin B)) :
    loss_all t bt B D (fun a => f (σ a)) (mask_from_labels B (fun a => l (σ a)))
        (weights_from_labels B (fun a => l (σ a)))
      = loss_all t bt B D f (mask_from_labels B l) (weights_from_labels B l) := by
  unfold loss_all
  have hs : anchor_dot_contrast_all t B D (fun a => f (σ a))
      = fun i j => anchor_dot_contrast_all t B D f (pool_perm B σ i) (pool_perm B σ j) := by
    funext i j
    exact adc_all_perm t B D f σ i j
  have hm : tile_mask_all B (mask_from_labels B (fun a => l (σ a)))
      = fun i j => tile_mask_all B (mask_from_labels B l) (pool_perm B σ i) (pool_perm B σ j) := by
    funext i j
    exact tile_mask_all_perm B l σ i j
  have hw : weights_from_labels B (fun a => l (σ a))
      = fun j k => weights_from_labels B l (pool_perm B σ j) (pool_perm B σ k) := by
    funext j k
    exact weights_perm B l σ j k
  rw [hs, hm, hw, logitsShifted_reindex (pool_perm B σ) (pool_perm B σ)]
  exact loss_reduce_reindex t bt (pool_perm B σ) (pool_perm B σ)
    (pool_perm_val_iff B σ) _ _ _

lemma loss_one_perm (t bt : ℝ) (B D : ℕ) (f : Fin B → Fin 2 → Fin D → ℝ)
    (l : Fin B → ℝ) (σ : Equiv.Perm (Fin B)) :
    loss_one t bt B D (fun a => f (σ a)) (mask_from_labels B (fun a => l (σ a)))
        (weights_from_labels B (fun a => l (σ a)))
      = loss_one t bt B D f (mask_from_labels B l) (weights_from_labels B l) := by
  unfold loss_one
  have hs : anchor_dot_contrast_one t B D (fun a => f (σ a))
      = fun i j => anchor_dot_contrast_one t B D f (σ i) (pool_perm B σ j) := by
    funext i j
    exact adc_one_perm t B D f σ i j
  have hm : tile_mask_one B (mask_from_labels B (fun a => l (σ a)))
      = fun i j => tile_mask_one B (mask_from_labels B l) (σ i) (pool_perm B σ j) := by
    funext i j
    exact tile_mask_one_perm B l σ i j
  have hw : weights_from_labels B (fun a => l (σ a))
      = fun j k => weights_from_labels B l (pool_perm B σ j) (pool_perm B σ k) := by
    funext j k
    exact weights_perm B l σ j k
  rw [hs, hm, hw, logitsShifted_reindex σ (pool_perm B σ)]
  exact loss_reduce_reindex t bt σ (pool_perm B σ)
    (pool_perm_val_iff_one B σ) _ _ _

/-- C8: applying a permutation of the batch indices jointly to the batch axis
of the features and to the labels leaves the returned scalar loss unchanged in
exact arithmetic, in both valid contrast modes. -/
theorem C8_batch_permutation_invariance (t bt : ℝ) (B D : ℕ)
    (f : Fin B → Fin 2 → Fin D → ℝ) (l : Fin B → ℝ) (σ : Equiv.Perm (Fin B)) :
    construct t bt "all" B D (fun a => f (σ a))
        (some (List.ofFn (fun a => l (σ a)))) none =
      construct t bt "all" B D f (some (List.ofFn l)) none ∧
    construct t bt "one" B D (fun a => f (σ a))
        (some (List.ofFn (fun a => l (σ a)))) none =
      construct t bt "one" B D f (some (List.ofFn l)) none := by
  constructor
  · rw [construct_labels_all t bt B D (fun a => f (σ a)) (fun a => l (σ a)),
      construct_labels_all t bt B D f l]
    exact congrArg Except.ok (loss_all_perm t bt B D f l σ)
  · rw [construct_labels_one t bt B D (fun a => f (σ a)) (fun a => l (σ a)),
      construct_labels_one t bt B D f l]
    exact congrArg Except.ok (loss_one_perm t bt B D f l σ)

end VIDUE
